import Mathlib

/-!
# Verification of the osconfig inventory-extraction and task-queue core

A shallow embedding of the parts of the repository that the claims are
about:

* the package record type and the inventory reconciler
  (`src/packages/inventory_comporator.go`);
* the JSON rendering of a comparison report (`printComparisonResult` and
  Go's `encoding/json` visibility rule);
* the modern structured-extraction path (`deconstructScanResult`,
  `inventoryFrom`, `extractAdditionalFieldsDpkg` in `src/unnamed/part_001`)
  and the legacy metadata-to-record construction
  (`pkgInfoFromPackageMetadata` in `src/util/util_test.go`);
* the single-worker task queue (`src/unnamed/part_000`), embedded as a
  labelled transition system over an explicit queue state.
-/

namespace OSConfig

/-- `packages.Source`: the source package from which a binary package was
built (`src/util/util_test.go`).  `extractors.Source` in
`src/unnamed/part_001` has the same two fields and is embedded by the same
type. -/
structure Source where
  name : String
  version : String
deriving DecidableEq

/-- `packages.PkgInfo` describes a package (`src/util/util_test.go`). -/
structure PkgInfo where
  name : String
  arch : String
  rawArch : String
  version : String
  source : Source
deriving DecidableEq

/-- Modelled from the spec: `PkgInfo.key` is called by `indexByKey` in
`src/packages/inventory_comporator.go` but its definition is not among the
provided source files.  The spec defines the identity key as
`(Name, Architecture, Version)`: two records with the same key are the
same package for reconciliation purposes regardless of other fields. -/
def PkgInfo.key (p : PkgInfo) : String × String × String :=
  (p.name, p.arch, p.version)

/-- The key type of the identity-keyed index. -/
abbrev PkgKey := String × String × String

/-- A Go `map[string]*PkgInfo` embedded as an association list with unique
keys kept in insertion order. -/
abbrev PkgIndex := List (PkgKey × PkgInfo)

/-- Go map assignment `m[k] = v`: overwrite the entry of an existing key,
otherwise add a new entry. -/
def mapAssign (m : PkgIndex) (k : PkgKey) (v : PkgInfo) : PkgIndex :=
  if m.any (fun kv => kv.1 = k) then
    m.map (fun kv => if kv.1 = k then (k, v) else kv)
  else
    m ++ [(k, v)]

/-- Go map lookup `m[k]`. -/
def lookupKey (m : PkgIndex) (k : PkgKey) : Option PkgInfo :=
  (m.find? (fun kv => kv.1 = k)).map (fun kv => kv.2)

/-- `indexByKey` (`src/packages/inventory_comporator.go`): index a package
list by identity key; a later record with an already-present key
overwrites the earlier one. -/
def indexByKey (pkgs : List PkgInfo) : PkgIndex :=
  pkgs.foldl (fun results pkg => mapAssign results pkg.key pkg) []

/-- `packages.comparisonResults` (`src/packages/inventory_comporator.go`). -/
structure comparisonResults where
  legacyExtractorItemsCount : Nat
  modernExtractorItemsCount : Nat
  legacyExtractorExtra : List PkgInfo
  modernExtractorExtra : List PkgInfo
deriving DecidableEq

/-- `compareExtractedPackages` (`src/packages/inventory_comporator.go`):
index both inventories by identity key, then collect the records of each
index whose key is absent from the other index; the counts are the raw
input lengths. -/
def compareExtractedPackages (legacyExtractor modernExtractor : List PkgInfo) :
    comparisonResults :=
  let legacyExtractorIndex := indexByKey legacyExtractor
  let modernExtractorIndex := indexByKey modernExtractor
  { legacyExtractorItemsCount := legacyExtractor.length
    modernExtractorItemsCount := modernExtractor.length
    legacyExtractorExtra :=
      (legacyExtractorIndex.filter
        (fun kv => (lookupKey modernExtractorIndex kv.1).isNone)).map (fun kv => kv.2)
    modernExtractorExtra :=
      (modernExtractorIndex.filter
        (fun kv => (lookupKey legacyExtractorIndex kv.1).isNone)).map (fun kv => kv.2) }

/-- A Go struct field as the reflection-based `encoding/json` marshaller
sees it: the Go field name, the json tag, and the rendered value. -/
structure GoJSONField where
  goName : String
  jsonTag : String
  value : String

/-- Go exports an identifier iff its first character is upper case;
`encoding/json` serializes only exported fields. -/
def goExported (name : String) : Bool :=
  name.front.isUpper

/-- Go `encoding/json` marshalling of a struct: only the exported fields
appear in the object. -/
def marshalGoStruct (fields : List GoJSONField) : String :=
  "\x7b"
    ++ String.intercalate ","
        ((fields.filter (fun f => goExported f.goName)).map
          (fun f => "\"" ++ f.jsonTag ++ "\":" ++ f.value))
    ++ "\x7d"

/-- JSON rendering of one package record (the shape `encoding/json` would
produce for an exported `PkgInfo`). -/
def renderPkgInfo (p : PkgInfo) : String :=
  "\x7b\"Name\":\"" ++ p.name ++ "\",\"Arch\":\"" ++ p.arch
    ++ "\",\"RawArch\":\"" ++ p.rawArch ++ "\",\"Version\":\"" ++ p.version
    ++ "\",\"Source\":\x7b\"Name\":\"" ++ p.source.name
    ++ "\",\"Version\":\"" ++ p.source.version ++ "\"\x7d\x7d"

/-- JSON rendering of a package list. -/
def renderPkgList (ps : List PkgInfo) : String :=
  "[" ++ String.intercalate "," (ps.map renderPkgInfo) ++ "]"

/-- The field table of `comparisonResults` exactly as declared in
`src/packages/inventory_comporator.go`: all four field names start with a
lower-case letter (unexported), and the two count fields carry one and the
same json tag `extracted_items_count`. -/
def comparisonResultsFields (r : comparisonResults) : List GoJSONField :=
  [ ⟨"legacyExtractorItemsCount", "extracted_items_count",
      toString r.legacyExtractorItemsCount⟩,
    ⟨"modernExtractorItemsCount", "extracted_items_count",
      toString r.modernExtractorItemsCount⟩,
    ⟨"legacyExtractorExtra", "legacy_extractor_extra",
      renderPkgList r.legacyExtractorExtra⟩,
    ⟨"modernExtractorExtra", "new_extractor_extra",
      renderPkgList r.modernExtractorExtra⟩ ]

/-- `printComparisonResult` (`src/packages/inventory_comporator.go`): the
two lines it logs — the header line, then the marshalled report. -/
def printComparisonResult (r : comparisonResults) : List String :=
  ["Comparison results after inventory extraction",
   marshalGoStruct (comparisonResultsFields r)]

/-- Modelled from the spec: `osinfo.NormalizeArchitecture` is referenced by
`src/util/util_test.go` and `src/packages/cos_test.go` but its definition
is not among the provided source files.  The spec says vendor-specific
spellings such as "noarch"/"all" map to one canonical token, and the cos
tests show "noarch" mapping to "all". -/
def NormalizeArchitecture (arch : String) : String :=
  if arch = "noarch" ∨ arch = "all" then "all" else arch

/-- `packages.packageMetadata` (`src/util/util_test.go`). -/
structure packageMetadata where
  package : String
  architecture : String
  version : String
  status : String
  sourceName : String
  sourceVersion : String
deriving DecidableEq

/-- `pkgInfoFromPackageMetadata` (`src/util/util_test.go`): the legacy
extraction path's record construction; the architecture is normalized into
`Arch`, and `RawArch` is left at its zero value. -/
def pkgInfoFromPackageMetadata (pm : packageMetadata) : PkgInfo :=
  { name := pm.package
    arch := NormalizeArchitecture pm.architecture
    rawArch := ""
    version := pm.version
    source := { name := pm.sourceName, version := pm.sourceVersion } }

/-- `extractors.Inventory` (`src/unnamed/part_001`): the common record
shape the modern extraction path produces.  Note it has a `RawArch` field
but no normalized-architecture field. -/
structure Inventory where
  name : String
  version : String
  rawArch : String
  source : Source
  purl : String
deriving DecidableEq

/-- The metadata attached to an osv-scalibr inventory item, as the
type-switch in `inventoryFrom` distinguishes it: the dpkg metadata kind
(with the fields the code reads), or any other metadata kind. -/
inductive ScalibrMetadata where
  | dpkg (architecture sourceName sourceVersion : String)
  | other
deriving DecidableEq

/-- `scalibr_extractor.Inventory`: the fields `inventoryFrom` reads. -/
structure ScalibrInventory where
  name : String
  version : String
  metadata : ScalibrMetadata
deriving DecidableEq

/-- `scalibr_plugin.ScanStatus`: the scan-status values the code branches
on. -/
inductive ScanStatus where
  | succeeded
  | partiallySucceeded
  | failed
  | unspecified
deriving DecidableEq

/-- `scalibr.ScanResult`: the fields `deconstructScanResult` reads. -/
structure ScanResult where
  status : ScanStatus
  failureReason : String
  inventories : List ScalibrInventory

/-- The external `dpkgExtractor.ToPURL` call: osv-scalibr code outside the
repository, passed in as a capability that may fail. -/
abbrev ToPURL := ScalibrInventory → Except String String

/-- `extractAdditionalFieldsDpkg` (`src/unnamed/part_001`): build the
source descriptor from the dpkg metadata fields and ask the external
extractor for the purl. -/
def extractAdditionalFieldsDpkg (toPURL : ToPURL) (inventory : ScalibrInventory)
    (sourceName sourceVersion : String) : Except String (Source × String) :=
  match toPURL inventory with
  | .error e => .error ("unable to extract purl, " ++ e)
  | .ok purl => .ok ({ name := sourceName, version := sourceVersion }, purl)

/-- `inventoryFrom` (`src/unnamed/part_001`): map one scanned item to the
common record shape; only the dpkg metadata kind is mapped, every other
kind is an error.  A successfully mapped record gets `Name`, `Version`,
`Source` and `Purl`; `RawArch` is never assigned and stays at its zero
value. -/
def inventoryFrom (toPURL : ToPURL) (inventory : ScalibrInventory) :
    Except String Inventory :=
  match inventory.metadata with
  | .dpkg _ sourceName sourceVersion =>
    match extractAdditionalFieldsDpkg toPURL inventory sourceName sourceVersion with
    | .error e => .error ("unable to extract additional fields, err: " ++ e)
    | .ok (source, purl) =>
      .ok { name := inventory.name, version := inventory.version, rawArch := ""
            source := source, purl := purl }
  | .other => .error "unsupported inventory item"

/-- The record-collection loop of `deconstructScanResult`
(`src/unnamed/part_001`): an item whose metadata cannot be mapped is
skipped (`continue`), the rest are appended in order. -/
def collectInventories (toPURL : ToPURL) : List ScalibrInventory → List Inventory
  | [] => []
  | inv :: rest =>
    match inventoryFrom toPURL inv with
    | .error _ => collectInventories toPURL rest
    | .ok item => item :: collectInventories toPURL rest

/-- `deconstructScanResult` (`src/unnamed/part_001`): on a failed scan
return an empty result and an error; otherwise collect the mappable
records, and pair them with a partial-failure error unless the scan fully
succeeded. -/
def deconstructScanResult (toPURL : ToPURL) (results : ScanResult) :
    List Inventory × Option String :=
  if results.status = .failed then
    ([], some ("scan failed, failure reason: " ++ results.failureReason))
  else
    let inventories := collectInventories toPURL results.inventories
    if results.status ≠ .succeeded then
      (inventories, some ("scan partially failed, failure reason: "
        ++ results.failureReason))
    else
      (inventories, none)

/-! ## The task queue (`src/unnamed/part_000`)

`TaskQueue` is an unbuffered channel `tc` of tasks, a wait group `wg` and
a mutex `mx`.  `Enqueue` locks `mx`, sends on `tc` (a rendezvous: the send
completes only when the single worker receives), and unlocks.  `Loop` —
started at most once, by the `sync.Once` guard in the package-level
`Enqueue` — receives tasks one at a time and runs each to completion
before receiving the next.  `Close` locks `mx`, closes `tc`, and waits for
the worker to drain and exit; it never unlocks `mx`, so every later
`Enqueue` or `Close` blocks forever on the mutex.

The embedding is a labelled transition system.  Tasks are identified by
natural numbers.  A `handoff` step is the completed rendezvous of an
`Enqueue` call: because `Enqueue` holds the mutex for the whole send and
the channel is unbuffered, hand-offs are mutually exclusive with each
other and with the start of `Close`, and a hand-off can complete only
while the worker exists and is idle.  `closeStart` is `Close` acquiring
the mutex and closing the channel (the mutex is then held forever), and
`closeReturn` is `Close`'s `wg.Wait()` returning after the worker has
drained and exited. -/

/-- The observable state of one queue instance plus the package-level
`sync.Once` worker guard. -/
structure QState where
  submitted : List Nat
  executed : List Nat
  running : Option Nat
  closed : Bool
  closeReturned : Bool
  workers : Nat
  onceDone : Bool
deriving DecidableEq

/-- A fresh queue: nothing submitted or executed, no worker started. -/
def initQState : QState :=
  { submitted := [], executed := [], running := none, closed := false,
    closeReturned := false, workers := 0, onceDone := false }

/-- The events of the queue's transition system. -/
inductive QEvent where
  | startWorker
  | handoff (t : Nat)
  | finish (t : Nat)
  | closeStart
  | closeReturn
deriving DecidableEq

/-- One step of the queue.  `startWorker` is the `sync.Once`-guarded
`go tq.Loop(ctx)`; `handoff t` is an `Enqueue` call completing its
rendezvous send of task `t` to the idle worker; `finish t` is the worker
finishing `t.run()`; `closeStart` is `Close` taking the mutex (held from
then on forever) and closing the channel; `closeReturn` is `Close`
returning from `wg.Wait()` once the worker has drained. -/
inductive QStep : QState → QEvent → QState → Prop where
  | startWorker (s : QState) (honce : s.onceDone = false) :
      QStep s .startWorker { s with onceDone := true, workers := s.workers + 1 }
  | handoff (s : QState) (t : Nat) (hopen : s.closed = false)
      (hidle : s.running = none) (hworker : 1 ≤ s.workers) :
      QStep s (.handoff t) { s with submitted := s.submitted ++ [t], running := some t }
  | finish (s : QState) (t : Nat) (hrun : s.running = some t) :
      QStep s (.finish t) { s with running := none, executed := s.executed ++ [t] }
  | closeStart (s : QState) (hopen : s.closed = false) :
      QStep s .closeStart { s with closed := true }
  | closeReturn (s : QState) (hclosed : s.closed = true) (hdrained : s.running = none) :
      QStep s .closeReturn { s with closeReturned := true }

/-- The states a fresh queue can reach. -/
inductive QReachable : QState → Prop where
  | init : QReachable initQState
  | step {s s' : QState} {e : QEvent} : QReachable s → QStep s e s' → QReachable s'

/-- The states reachable from a given state. -/
inductive QReachFrom : QState → QState → Prop where
  | refl (s : QState) : QReachFrom s s
  | step {s s' s'' : QState} {e : QEvent} :
      QReachFrom s s' → QStep s' e s'' → QReachFrom s s''

/-- The running task as a (sub-singleton) list. -/
def optList : Option Nat → List Nat
  | none => []
  | some t => [t]

/-- The inductive invariant of the queue: the submission order is the
execution order followed by the task in flight; the `sync.Once` guard has
started exactly as many workers as it has fired; and `Close` has returned
only after the channel was closed and the worker drained. -/
def QInv (s : QState) : Prop :=
  s.submitted = s.executed ++ optList s.running
  ∧ s.workers = (if s.onceDone then 1 else 0)
  ∧ (s.closeReturned = true → s.closed = true ∧ s.running = none)

/-- The queue invariant holds in every reachable state. -/
theorem qinv_of_reachable (s : QState) (h : QReachable s) : QInv s := by
  induction h with
  | init => exact ⟨rfl, rfl, by intro hcr; cases hcr⟩
  | step hr hs ih =>
    obtain ⟨h1, h2, h3⟩ := ih
    cases hs with
    | startWorker honce =>
      refine ⟨h1, ?_, h3⟩
      simp [honce] at h2
      simp [h2]
    | handoff t hopen hidle hworker =>
      refine ⟨?_, h2, ?_⟩
      · rw [hidle] at h1
        simp [optList] at h1
        simp [optList, h1]
      · intro hcr
        have hc := (h3 hcr).1
        rw [hopen] at hc
        exact Bool.noConfusion hc
    | finish t hrun =>
      refine ⟨?_, h2, ?_⟩
      · rw [hrun] at h1
        simpa [optList] using h1
      · intro hcr
        exact ⟨(h3 hcr).1, rfl⟩
    | closeStart hopen =>
      exact ⟨h1, h2, fun hcr => ⟨rfl, (h3 hcr).2⟩⟩
    | closeReturn hclosed hdrained =>
      exact ⟨h1, h2, fun _ => ⟨hclosed, hdrained⟩⟩

/-- From a closed queue no hand-off step is possible. -/
theorem no_handoff_of_closed (s : QState) (h : s.closed = true) :
    ∀ (t : Nat) (u : QState), ¬ QStep s (.handoff t) u := by
  intro t u hstep
  cases hstep with
  | handoff t2 hopen hidle hworker =>
    rw [h] at hopen
    exact Bool.noConfusion hopen

/-- Once closed, a queue stays closed and its submission list never grows. -/
theorem closed_stays_closed (s s' : QState) (hclosed : s.closed = true)
    (hreach : QReachFrom s s') :
    s'.closed = true ∧ s'.submitted = s.submitted := by
  induction hreach with
  | refl => exact ⟨hclosed, rfl⟩
  | step hr hs ih =>
    obtain ⟨hc, hsub⟩ := ih
    cases hs with
    | startWorker honce => exact ⟨hc, hsub⟩
    | handoff t hopen hidle hworker =>
      rw [hc] at hopen
      exact Bool.noConfusion hopen
    | finish t hrun => exact ⟨hc, hsub⟩
    | closeStart hopen =>
      rw [hc] at hopen
      exact Bool.noConfusion hopen
    | closeReturn h1 h2 => exact ⟨hc, hsub⟩

/-- C1: on a fresh queue every submitted task is executed exactly once and
in submission order — in every reachable state the execution history is
the submission history minus at most the one task in flight, and whenever
the worker is idle the two histories are equal; the `sync.Once` guard has
ever started at most one worker for the instance. -/
theorem taskQueue_fifo_exactly_once (s : QState) (h : QReachable s) :
    s.workers ≤ 1
    ∧ s.submitted = s.executed ++ optList s.running
    ∧ (s.running = none → s.executed = s.submitted) := by
  obtain ⟨h1, h2, _⟩ := qinv_of_reachable s h
  refine ⟨?_, h1, ?_⟩
  · rw [h2]
    split <;> simp
  · intro hr
    rw [h1, hr]
    simp [optList]

/-- Witness for C1: the state reached by starting the worker, handing off
task `0` and finishing it is reachable, and the theorem's conclusions hold
there. -/
theorem taskQueue_fifo_exactly_once_witness :
    (1 : Nat) ≤ 1
    ∧ ([0] : List Nat) = [0] ++ optList none
    ∧ ((none : Option Nat) = none → ([0] : List Nat) = [0]) := by
  have r1 : QReachable
      { submitted := [], executed := [], running := none, closed := false,
        closeReturned := false, workers := 1, onceDone := true } :=
    QReachable.step QReachable.init (QStep.startWorker initQState rfl)
  have r2 : QReachable
      { submitted := [0], executed := [], running := some 0, closed := false,
        closeReturned := false, workers := 1, onceDone := true } :=
    QReachable.step r1 (QStep.handoff _ 0 rfl rfl (Nat.le_refl 1))
  have r3 : QReachable
      { submitted := [0], executed := [0], running := none, closed := false,
        closeReturned := false, workers := 1, onceDone := true } :=
    QReachable.step r2 (QStep.finish _ 0 rfl)
  exact taskQueue_fifo_exactly_once _ r3

/-- C2: whenever `Close` has returned, the channel was closed, the worker
has drained, and every task that was submitted before the close has been
executed — the execution history equals the whole submission history. -/
theorem close_returns_after_all_tasks (s : QState) (h : QReachable s)
    (hret : s.closeReturned = true) :
    s.closed = true ∧ s.running = none ∧ s.executed = s.submitted := by
  obtain ⟨h1, _, h3⟩ := qinv_of_reachable s h
  obtain ⟨hc, hr⟩ := h3 hret
  refine ⟨hc, hr, ?_⟩
  rw [h1, hr]
  simp [optList]

/-- Witness for C2: a run that starts the worker, hands off and finishes
task `0`, closes and lets `Close` return reaches a state where the
theorem's conclusions hold. -/
theorem close_returns_after_all_tasks_witness :
    (true = true) ∧ ((none : Option Nat) = none) ∧ ([0] : List Nat) = [0] := by
  have r1 : QReachable
      { submitted := [], executed := [], running := none, closed := false,
        closeReturned := false, workers := 1, onceDone := true } :=
    QReachable.step QReachable.init (QStep.startWorker initQState rfl)
  have r2 : QReachable
      { submitted := [0], executed := [], running := some 0, closed := false,
        closeReturned := false, workers := 1, onceDone := true } :=
    QReachable.step r1 (QStep.handoff _ 0 rfl rfl (Nat.le_refl 1))
  have r3 : QReachable
      { submitted := [0], executed := [0], running := none, closed := false,
        closeReturned := false, workers := 1, onceDone := true } :=
    QReachable.step r2 (QStep.finish _ 0 rfl)
  have r4 : QReachable
      { submitted := [0], executed := [0], running := none, closed := true,
        closeReturned := false, workers := 1, onceDone := true } :=
    QReachable.step r3 (QStep.closeStart _ rfl)
  have r5 : QReachable
      { submitted := [0], executed := [0], running := none, closed := true,
        closeReturned := true, workers := 1, onceDone := true } :=
    QReachable.step r4 (QStep.closeReturn _ rfl rfl)
  exact close_returns_after_all_tasks _ r5 rfl

/-- C3: after `Close` has started (it holds the mutex forever), the queue
is closed in every later state, no `Enqueue` hand-off can ever complete
again, and the submission history never grows — an `Enqueue` issued after
`Close` blocks forever, never returns and never gets its task executed. -/
theorem enqueue_after_close_blocks (s s' : QState) (hclosed : s.closed = true)
    (hreach : QReachFrom s s') :
    s'.closed = true ∧ s'.submitted = s.submitted
    ∧ ∀ (t : Nat) (u : QState), ¬ QStep s' (.handoff t) u := by
  obtain ⟨hc, hsub⟩ := closed_stays_closed s s' hclosed hreach
  exact ⟨hc, hsub, no_handoff_of_closed s' hc⟩

/-- Witness for C3: from a concrete closed state, no hand-off is possible
in the state itself (reached by the reflexive path). -/
theorem enqueue_after_close_blocks_witness :
    (true = true) ∧ ([0] : List Nat) = [0]
    ∧ ∀ (t : Nat) (u : QState),
        ¬ QStep { submitted := [0], executed := [0], running := none, closed := true,
                  closeReturned := false, workers := 1, onceDone := true } (.handoff t) u :=
  enqueue_after_close_blocks
    { submitted := [0], executed := [0], running := none, closed := true,
      closeReturned := false, workers := 1, onceDone := true }
    { submitted := [0], executed := [0], running := none, closed := true,
      closeReturned := false, workers := 1, onceDone := true }
    rfl (QReachFrom.refl _)

/-- The skip-and-continue loop of `deconstructScanResult` keeps exactly
the mappable records, in input order. -/
theorem collectInventories_eq_filterMap (toPURL : ToPURL) (l : List ScalibrInventory) :
    collectInventories toPURL l
      = l.filterMap (fun i => (inventoryFrom toPURL i).toOption) := by
  induction l with
  | nil => rfl
  | cons i rest ih =>
    cases h : inventoryFrom toPURL i with
    | error e => simp [collectInventories, h, Except.toOption, ih]
    | ok item => simp [collectInventories, h, Except.toOption, ih]

/-- C4: on a fully failed scan the extraction returns an empty result, and
it returns an error exactly when the scan did not fully succeed (full
failure and partial failure); otherwise the returned records are exactly
the individually mappable ones, so one unmappable record is skipped
without failing the rest. -/
theorem extractInventory_error_handling (toPURL : ToPURL) (results : ScanResult) :
    ((deconstructScanResult toPURL results).1
        = if results.status = .failed then []
          else results.inventories.filterMap (fun i => (inventoryFrom toPURL i).toOption))
    ∧ ((deconstructScanResult toPURL results).2.isSome ↔ results.status ≠ .succeeded) := by
  obtain ⟨st, reason, invs⟩ := results
  cases st <;>
    simp [deconstructScanResult, collectInventories_eq_filterMap]

/-- C10: a scanned item whose metadata is not of the dpkg kind is mapped
to an error by `inventoryFrom`, and the collection loop drops it from the
extraction result. -/
theorem inventoryFrom_non_dpkg_error (toPURL : ToPURL) (name version : String)
    (rest : List ScalibrInventory) :
    inventoryFrom toPURL ⟨name, version, .other⟩ = .error "unsupported inventory item"
    ∧ collectInventories toPURL (⟨name, version, .other⟩ :: rest)
        = collectInventories toPURL rest :=
  ⟨rfl, by simp [collectInventories, inventoryFrom]⟩

/-- The two records of the spec's reconciliation example. -/
def examplePkgA : PkgInfo := ⟨"a", "x86_64", "", "1.0", ⟨"", ""⟩⟩

/-- The second record of the spec's reconciliation example. -/
def examplePkgB : PkgInfo := ⟨"b", "noarch", "", "2.0", ⟨"", ""⟩⟩

/-- C5: the reported counts are the raw lengths of the two input lists —
not the deduplicated index sizes, as the duplicate-key instance shows —
and the spec's concrete example evaluates exactly as stated. -/
theorem compare_counts_raw_lengths_and_example :
    (∀ legacyExtractor modernExtractor : List PkgInfo,
        (compareExtractedPackages legacyExtractor modernExtractor).legacyExtractorItemsCount
            = legacyExtractor.length
        ∧ (compareExtractedPackages legacyExtractor modernExtractor).modernExtractorItemsCount
            = modernExtractor.length)
    ∧ compareExtractedPackages [examplePkgA] [examplePkgA, examplePkgB]
        = { legacyExtractorItemsCount := 1, modernExtractorItemsCount := 2,
            legacyExtractorExtra := [], modernExtractorExtra := [examplePkgB] }
    ∧ (compareExtractedPackages [examplePkgA, examplePkgA] []).legacyExtractorItemsCount = 2
    ∧ (indexByKey [examplePkgA, examplePkgA]).length = 1 :=
  ⟨fun _ _ => ⟨rfl, rfl⟩, by decide, by decide, by decide⟩

/-- C6: the legacy-extra of `Compare(A, B)` is the modern-extra of
`Compare(B, A)`: both are the records of `A`'s index whose key is absent
from `B`'s index, collected by the same loop. -/
theorem compare_symmetric (A B : List PkgInfo) :
    (compareExtractedPackages A B).legacyExtractorExtra
      = (compareExtractedPackages B A).modernExtractorExtra := rfl

/-- C9: every field of `comparisonResults` is unexported, so the
reflection-based marshaller emits an empty JSON object whatever the counts
and extra lists are: the logged report never contains any comparison
data. -/
theorem printComparisonResult_empty_object (r : comparisonResults) :
    printComparisonResult r
      = ["Comparison results after inventory extraction", "\x7b\x7d"] := by
  have h1 : goExported "legacyExtractorItemsCount" = false := by decide
  have h2 : goExported "modernExtractorItemsCount" = false := by decide
  have h3 : goExported "legacyExtractorExtra" = false := by decide
  have h4 : goExported "modernExtractorExtra" = false := by decide
  simp only [printComparisonResult, marshalGoStruct, comparisonResultsFields,
    List.filter, h1, h2, h3, h4]
  rfl

/-- A concrete dpkg-scanned item whose metadata architecture is the
vendor-specific spelling "noarch". -/
def noarchDpkgItem : ScalibrInventory := ⟨"pkg", "1.0", .dpkg "noarch" "src" "1.0"⟩

/-- A purl capability that always succeeds. -/
def toPURLok : ToPURL := fun _ => .ok "pkg:deb/debian/pkg@1.0"

/-- Counterexample to C8: on the modern extraction path the record built
by `inventoryFrom` carries no normalized architecture.  For a dpkg item
whose metadata architecture is "noarch" the record's only architecture
field, `RawArch`, is left empty rather than set to the canonical token. -/
theorem modern_path_arch_not_normalized_cex :
    (inventoryFrom toPURLok noarchDpkgItem).toOption.map Inventory.rawArch = some ""
    ∧ NormalizeArchitecture "noarch" = "all"
    ∧ ("" : String) ≠ "all" := by
  refine ⟨rfl, by decide, by decide⟩

/-- C8 amended: only the legacy extraction path normalizes the
architecture — `pkgInfoFromPackageMetadata` stores the canonical token in
`Arch` for every input metadata record, while the modern path's
`inventoryFrom` populates no architecture field at all: every record it
successfully maps has an empty `RawArch`. -/
theorem arch_normalization_per_path (pm : packageMetadata) (toPURL : ToPURL)
    (inv : ScalibrInventory) (item : Inventory)
    (hok : inventoryFrom toPURL inv = .ok item) :
    (pkgInfoFromPackageMetadata pm).arch = NormalizeArchitecture pm.architecture
    ∧ item.rawArch = "" := by
  refine ⟨rfl, ?_⟩
  cases hmeta : inv.metadata with
  | dpkg a sn sv =>
    cases hto : toPURL inv with
    | error e =>
      simp [inventoryFrom, extractAdditionalFieldsDpkg, hmeta, hto] at hok
    | ok purl =>
      simp [inventoryFrom, extractAdditionalFieldsDpkg, hmeta, hto] at hok
      rw [← hok]
  | other =>
    simp [inventoryFrom, hmeta] at hok

/-- Witness for the amended C8: the legacy path normalizes "noarch" for a
concrete metadata record, and a concrete successfully mapped modern-path
record has an empty `RawArch`. -/
theorem arch_normalization_per_path_witness :
    (pkgInfoFromPackageMetadata ⟨"foo", "noarch", "1.0", "installed", "src", "1.0"⟩).arch
        = NormalizeArchitecture "noarch"
    ∧ ({ name := "pkg", version := "1.0", rawArch := "", source := ⟨"src", "1.0"⟩,
         purl := "pkg:deb/debian/pkg@1.0" } : Inventory).rawArch = "" :=
  arch_normalization_per_path ⟨"foo", "noarch", "1.0", "installed", "src", "1.0"⟩
    toPURLok noarchDpkgItem
    { name := "pkg", version := "1.0", rawArch := "", source := ⟨"src", "1.0"⟩,
      purl := "pkg:deb/debian/pkg@1.0" } rfl

/-- Two records sharing one identity key but differing in their source
package. -/
def dupPkg1 : PkgInfo := ⟨"a", "x86_64", "", "1.0", ⟨"s1", "1"⟩⟩

/-- The second record of the duplicate-key pair. -/
def dupPkg2 : PkgInfo := ⟨"a", "x86_64", "", "1.0", ⟨"s2", "1"⟩⟩

/-- Counterexample to C7: when an inventory holds two records sharing one
identity key, reordering it changes the comparison result — the extras of
the reordered inputs are not the same set of records, because the index
keeps the last record of a duplicated key. -/
theorem compare_perm_cex :
    List.Perm [dupPkg1, dupPkg2] [dupPkg2, dupPkg1]
    ∧ (compareExtractedPackages [dupPkg1, dupPkg2] []).legacyExtractorExtra = [dupPkg2]
    ∧ (compareExtractedPackages [dupPkg2, dupPkg1] []).legacyExtractorExtra = [dupPkg1]
    ∧ dupPkg2 ∉ (compareExtractedPackages [dupPkg2, dupPkg1] []).legacyExtractorExtra
    ∧ dupPkg1 ≠ dupPkg2 :=
  ⟨List.Perm.swap dupPkg2 dupPkg1 [], by decide, by decide, by decide, by decide⟩

/-- Overwriting the entry of one key does not change the key list. -/
theorem keys_overwrite (m : PkgIndex) (k : PkgKey) (v : PkgInfo) :
    (m.map fun kv => if kv.1 = k then (k, v) else kv).map Prod.fst = m.map Prod.fst := by
  induction m with
  | nil => rfl
  | cons kv rest ih =>
    simp only [List.map_cons, ih]
    by_cases h : kv.1 = k
    · simp [h]
    · simp [h]

/-- Membership in the key list of a Go map after one assignment. -/
theorem mem_keys_mapAssign (m : PkgIndex) (k : PkgKey) (v : PkgInfo) (k2 : PkgKey) :
    k2 ∈ (mapAssign m k v).map Prod.fst ↔ k2 ∈ m.map Prod.fst ∨ k2 = k := by
  unfold mapAssign
  split
  · next hany =>
    rw [keys_overwrite]
    constructor
    · exact Or.inl
    · rintro (h | rfl)
      · exact h
      · rcases List.any_eq_true.mp hany with ⟨kv, hkv, hdec⟩
        have hk : kv.1 = k2 := of_decide_eq_true hdec
        exact hk ▸ List.mem_map_of_mem Prod.fst hkv
  · next hany =>
    simp [List.mem_append]

/-- Membership in the key list of the fold that builds the index, for any
starting map. -/
theorem mem_keys_indexByKey_foldl (l : List PkgInfo) :
    ∀ (m : PkgIndex) (k : PkgKey),
      k ∈ (l.foldl (fun results pkg => mapAssign results pkg.key pkg) m).map Prod.fst
        ↔ k ∈ m.map Prod.fst ∨ ∃ p ∈ l, p.key = k := by
  induction l with
  | nil =>
    intro m k
    simp
  | cons p rest ih =>
    intro m k
    rw [List.foldl_cons, ih, mem_keys_mapAssign]
    simp only [List.mem_cons]
    constructor
    · rintro ((h | rfl) | ⟨q, hq, hk⟩)
      · exact Or.inl h
      · exact Or.inr ⟨p, Or.inl rfl, rfl⟩
      · exact Or.inr ⟨q, Or.inr hq, hk⟩
    · rintro (h | ⟨q, (rfl | hq), hk⟩)
      · exact Or.inl (Or.inl h)
      · exact Or.inl (Or.inr hk.symm)
      · exact Or.inr ⟨q, hq, hk⟩

/-- A key is present in the identity-keyed index exactly when some record
of the input list has that key. -/
theorem mem_keys_indexByKey (l : List PkgInfo) (k : PkgKey) :
    k ∈ (indexByKey l).map Prod.fst ↔ ∃ p ∈ l, p.key = k := by
  have h := mem_keys_indexByKey_foldl l [] k
  simpa [indexByKey] using h

/-- The lookup of a key succeeds exactly when the key is in the key list. -/
theorem lookupKey_isSome_iff (m : PkgIndex) (k : PkgKey) :
    (lookupKey m k).isSome = true ↔ k ∈ m.map Prod.fst := by
  simp only [lookupKey, Option.isSome_map', List.find?_isSome, decide_eq_true_eq,
    List.mem_map]

/-- Every entry of the index maps a key to a record carrying that key, for
any starting map with the same property. -/
theorem indexByKey_entry_key_foldl (l : List PkgInfo) :
    ∀ (m : PkgIndex), (∀ kv ∈ m, kv.2.key = kv.1) →
      ∀ kv ∈ l.foldl (fun results pkg => mapAssign results pkg.key pkg) m,
        kv.2.key = kv.1 := by
  induction l with
  | nil =>
    intro m hm
    exact hm
  | cons p rest ih =>
    intro m hm
    rw [List.foldl_cons]
    apply ih
    intro kv hkv
    unfold mapAssign at hkv
    split at hkv
    · rcases List.mem_map.mp hkv with ⟨kv0, hkv0, heq⟩
      by_cases h : kv0.1 = p.key
      · rw [if_pos h] at heq
        rw [← heq]
      · rw [if_neg h] at heq
        rw [← heq]
        exact hm kv0 hkv0
    · rcases List.mem_append.mp hkv with hin | hone
      · exact hm kv hin
      · rcases List.mem_singleton.mp hone with rfl
        rfl

/-- Every entry of the index maps a key to a record carrying that key. -/
theorem indexByKey_entry_key (l : List PkgInfo) :
    ∀ kv ∈ indexByKey l, kv.2.key = kv.1 := by
  apply indexByKey_entry_key_foldl
  intro kv hkv
  cases hkv

/-- The identity keys found in the records of `X`'s index whose key is
absent from `Y`'s index are exactly the keys carried in `X` and not in
`Y`. -/
theorem mem_extra_keys (X Y : List PkgInfo) (k : PkgKey) :
    k ∈ (((indexByKey X).filter
          (fun kv => (lookupKey (indexByKey Y) kv.1).isNone)).map (fun kv => kv.2)).map
          PkgInfo.key
      ↔ (∃ p ∈ X, p.key = k) ∧ ¬ ∃ p ∈ Y, p.key = k := by
  rw [List.map_map]
  constructor
  · intro h
    rcases List.mem_map.mp h with ⟨kv, hkv, hk⟩
    rcases List.mem_filter.mp hkv with ⟨hmem, hpred⟩
    have hkey : kv.2.key = kv.1 := indexByKey_entry_key X kv hmem
    have hk1 : kv.1 = k := by
      rw [← hkey]
      exact hk
    constructor
    · exact (mem_keys_indexByKey X k).mp (hk1 ▸ List.mem_map_of_mem Prod.fst hmem)
    · intro hcon
      have hmemY : k ∈ (indexByKey Y).map Prod.fst := (mem_keys_indexByKey Y k).mpr hcon
      have hsome : (lookupKey (indexByKey Y) kv.1).isSome = true := by
        rw [hk1]
        exact (lookupKey_isSome_iff _ _).mpr hmemY
      rw [Option.isSome_iff_ne_none] at hsome
      exact hsome (Option.isNone_iff_eq_none.mp hpred)
  · rintro ⟨hx, hy⟩
    have hkX : k ∈ (indexByKey X).map Prod.fst := (mem_keys_indexByKey X k).mpr hx
    rcases List.mem_map.mp hkX with ⟨kv, hkv, hk1⟩
    have hkey : kv.2.key = kv.1 := indexByKey_entry_key X kv hkv
    refine List.mem_map.mpr ⟨kv, List.mem_filter.mpr ⟨hkv, ?_⟩, ?_⟩
    · rw [Option.isNone_iff_eq_none, ← Option.not_isSome_iff_eq_none]
      intro hsome
      apply hy
      apply (mem_keys_indexByKey Y k).mp
      have := (lookupKey_isSome_iff _ _).mp hsome
      rwa [hk1] at this
    · show kv.2.key = k
      rw [hkey, hk1]

/-- The identity keys of `Compare(A, B)`'s legacy-extra records are the
keys carried in `A` and absent from `B`. -/
theorem compare_legacy_extra_key_mem (A B : List PkgInfo) (k : PkgKey) :
    k ∈ (compareExtractedPackages A B).legacyExtractorExtra.map PkgInfo.key
      ↔ (∃ p ∈ A, p.key = k) ∧ ¬ ∃ p ∈ B, p.key = k :=
  mem_extra_keys A B k

/-- The identity keys of `Compare(A, B)`'s modern-extra records are the
keys carried in `B` and absent from `A`. -/
theorem compare_modern_extra_key_mem (A B : List PkgInfo) (k : PkgKey) :
    k ∈ (compareExtractedPackages A B).modernExtractorExtra.map PkgInfo.key
      ↔ (∃ p ∈ B, p.key = k) ∧ ¬ ∃ p ∈ A, p.key = k :=
  mem_extra_keys B A k

/-- Carrying a key is invariant under permuting the list. -/
theorem exists_key_perm (L L2 : List PkgInfo) (h : L.Perm L2) (k : PkgKey) :
    (∃ p ∈ L, p.key = k) ↔ ∃ p ∈ L2, p.key = k := by
  constructor <;> rintro ⟨p, hp, hk⟩
  · exact ⟨p, h.mem_iff.mp hp, hk⟩
  · exact ⟨p, h.mem_iff.mpr hp, hk⟩

/-- C7 amended: comparison is pure and order-independent up to the
identity key — permuting either input changes neither count, and the
extras of the permuted comparison carry exactly the same identity keys;
which representative record of a duplicated key appears in the extras is
the only part that depends on input order. -/
theorem compare_perm_invariant_up_to_key (A A2 B B2 : List PkgInfo)
    (hA : A.Perm A2) (hB : B.Perm B2) :
    (compareExtractedPackages A B).legacyExtractorItemsCount
        = (compareExtractedPackages A2 B2).legacyExtractorItemsCount
    ∧ (compareExtractedPackages A B).modernExtractorItemsCount
        = (compareExtractedPackages A2 B2).modernExtractorItemsCount
    ∧ (∀ k, k ∈ (compareExtractedPackages A B).legacyExtractorExtra.map PkgInfo.key
        ↔ k ∈ (compareExtractedPackages A2 B2).legacyExtractorExtra.map PkgInfo.key)
    ∧ (∀ k, k ∈ (compareExtractedPackages A B).modernExtractorExtra.map PkgInfo.key
        ↔ k ∈ (compareExtractedPackages A2 B2).modernExtractorExtra.map PkgInfo.key) := by
  refine ⟨hA.length_eq, hB.length_eq, ?_, ?_⟩
  · intro k
    rw [compare_legacy_extra_key_mem, compare_legacy_extra_key_mem,
      exists_key_perm A A2 hA k, exists_key_perm B B2 hB k]
  · intro k
    rw [compare_modern_extra_key_mem, compare_modern_extra_key_mem,
      exists_key_perm A A2 hA k, exists_key_perm B B2 hB k]

/-- Witness for the amended C7: the duplicate-key pair and its reordering
satisfy the key-level invariance. -/
theorem compare_perm_invariant_up_to_key_witness :
    (compareExtractedPackages [dupPkg1, dupPkg2] []).legacyExtractorItemsCount
        = (compareExtractedPackages [dupPkg2, dupPkg1] []).legacyExtractorItemsCount
    ∧ (compareExtractedPackages [dupPkg1, dupPkg2] []).modernExtractorItemsCount
        = (compareExtractedPackages [dupPkg2, dupPkg1] []).modernExtractorItemsCount
    ∧ (∀ k, k ∈ (compareExtractedPackages [dupPkg1, dupPkg2] []).legacyExtractorExtra.map
            PkgInfo.key
        ↔ k ∈ (compareExtractedPackages [dupPkg2, dupPkg1] []).legacyExtractorExtra.map
            PkgInfo.key)
    ∧ (∀ k, k ∈ (compareExtractedPackages [dupPkg1, dupPkg2] []).modernExtractorExtra.map
            PkgInfo.key
        ↔ k ∈ (compareExtractedPackages [dupPkg2, dupPkg1] []).modernExtractorExtra.map
            PkgInfo.key) :=
  compare_perm_invariant_up_to_key [dupPkg1, dupPkg2] [dupPkg2, dupPkg1] [] []
    (List.Perm.swap dupPkg2 dupPkg1 []) (List.Perm.refl [])

end OSConfig
